import Mathlib

/-!
Verification of the DakkeManager cross-branch reconciliation program
(src/branch_manager.py and src/holoo_api.py) against its design
specification.

The Python source is shallowly embedded.  JSON values occurring in article
records are modelled by the inductive type PyVal: strings, integers and
floats, where a float is modelled as an exact decimal number m / 10^e.
This is faithful for every float whose value is an exactly representable
short decimal, which covers all concrete inputs used in the theorems; the
rounding step of the ",.2f" format is modelled as decimal round-half-even,
which agrees with CPython on exactly representable decimals.  Stateful GUI
code is embedded as pure functions of its inputs; network and database
effects are parametrised by oracle functions, one call outcome per attempt.
-/

set_option maxRecDepth 10000

/-- Decimal digit characters. -/
def digitChar : Nat → Char
  | 0 => '0' | 1 => '1' | 2 => '2' | 3 => '3' | 4 => '4'
  | 5 => '5' | 6 => '6' | 7 => '7' | 8 => '8' | _ => '9'

/-- Digits of a natural number, most significant first.  Fuel-driven so that
it reduces definitionally; fuel n+1 always suffices for n. -/
def natDigitsAux : Nat → Nat → List Char
  | 0, _ => []
  | fuel+1, n => if n < 10 then [digitChar n] else natDigitsAux fuel (n / 10) ++ [digitChar (n % 10)]

/-- Decimal digit string of a natural number, as Python renders it. -/
def natDigits (n : Nat) : List Char := natDigitsAux (n + 1) n

/-- An exact decimal number m / 10^e; the model of a Python float. -/
structure Dec where
  m : Int
  e : Nat
deriving DecidableEq

/-- Remove trailing decimal zeros: divides m by 10 while the exponent is
positive and m is divisible by 10 (all divisions exact). -/
def normAux : Int → Nat → Int × Nat
  | m, 0 => (m, 0)
  | m, e+1 => if m % 10 == 0 then normAux (m.tdiv 10) e else (m, e+1)

/-- Normal form of a decimal: same value, minimal exponent. -/
def Dec.norm (d : Dec) : Dec := ⟨(normAux d.m d.e).1, (normAux d.m d.e).2⟩

/-- Left-pad a digit string with zeros up to width e. -/
def padZeros (l : List Char) (e : Nat) : List Char := List.replicate (e - l.length) '0' ++ l

/-- Python str() of a float (for floats whose value is an exact short
decimal, where the shortest round-trip repr is the decimal itself):
integral floats print with a trailing ".0", others print sign, integer
part and the full fractional digits. -/
def decChars (d : Dec) : List Char :=
  let n := d.norm
  let a := n.m.natAbs
  let sign : List Char := if n.m < 0 then ['-'] else []
  if n.e = 0 then sign ++ natDigits a ++ ['.', '0']
  else sign ++ natDigits (a / 10 ^ n.e) ++ '.' :: padZeros (natDigits (a % 10 ^ n.e)) n.e

/-- The JSON/Python values that article fields range over. -/
inductive PyVal where
  | none
  | str (s : String)
  | int (n : Int)
  | float (d : Dec)
deriving DecidableEq

/-- Python truthiness of the modelled values (None, empty string and zero
are falsy). -/
def PyVal.truthy : PyVal → Bool
  | .none => false
  | .str s => s != ""
  | .int n => n != 0
  | .float d => d.m != 0

/-- Decimal digit string of an integer, as Python renders it. -/
def intChars (n : Int) : List Char := (if n < 0 then ['-'] else []) ++ natDigits n.natAbs

/-- Python str() on the modelled values. -/
def pyStr : PyVal → String
  | .none => "None"
  | .str s => s
  | .int n => ⟨intChars n⟩
  | .float d => ⟨decChars d⟩

/-- Numeric value of a digit string. -/
def digitsToNat (l : List Char) : Nat := l.foldl (fun a c => 10 * a + (c.toNat - 48)) 0

/-- Parser for the plain decimal string forms accepted by Python float().
Scientific notation, surrounding whitespace and infinities are outside the
model (no theorem below depends on string-typed numeric inputs). -/
def parseDec (cs : List Char) : Option Dec :=
  let sr : Bool × List Char := match cs with
    | '-' :: r => (true, r)
    | '+' :: r => (false, r)
    | r => (false, r)
  let ip := sr.2.takeWhile (fun c => c != '.')
  match sr.2.dropWhile (fun c => c != '.') with
  | [] =>
    if ip ≠ [] ∧ ip.all Char.isDigit then
      some ⟨if sr.1 then -(digitsToNat ip : Int) else (digitsToNat ip : Int), 0⟩
    else Option.none
  | '.' :: fp =>
    if (ip ++ fp) ≠ [] ∧ ip.all Char.isDigit ∧ fp.all Char.isDigit then
      let v : Nat := digitsToNat ip * 10 ^ fp.length + digitsToNat fp
      some ⟨if sr.1 then -(v : Int) else (v : Int), fp.length⟩
    else Option.none
  | _ => Option.none

/-- Python float(value) on the modelled values: identity on numbers,
decimal parsing on strings, failure (TypeError) on None. -/
def toNum : PyVal → Option Dec
  | .none => Option.none
  | .str s => parseDec s.data
  | .int n => some ⟨n, 0⟩
  | .float d => some d

/-- Python value == 0 on the modelled values (strings and None never
compare equal to 0). -/
def isPyZero : PyVal → Bool
  | .int n => n == 0
  | .float d => d.m == 0
  | _ => false

/-- num == int(num): the decimal has no fractional part. -/
def Dec.isIntegral (d : Dec) : Bool := d.m % (10 ^ d.e : Int) == 0

/-- Python int(num): truncation toward zero. -/
def Dec.truncInt (d : Dec) : Int := d.m.tdiv (10 ^ d.e : Int)

/-- Insert a comma after every three characters of a reversed digit list. -/
def commaRev : List Char → List Char
  | a :: b :: c :: d :: rest => a :: b :: c :: ',' :: commaRev (d :: rest)
  | l => l

/-- Thousands grouping of a digit string, as Python's "," format spec. -/
def commaGroup (ds : List Char) : List Char := (commaRev ds.reverse).reverse

/-- Python "{:,.0f}" applied to an integer. -/
def priceIntChars (n : Int) : List Char :=
  (if n < 0 then ['-'] else []) ++ commaGroup (natDigits n.natAbs)

/-- Round a / b (b > 0) to the nearest integer, ties to even. -/
def roundHalfEvenDiv (a b : Int) : Int :=
  let q := Int.fdiv a b
  let r := a - q * b
  if 2 * r < b then q else if b < 2 * r then q + 1 else if q % 2 == 0 then q else q + 1

/-- Python "{:,.2f}": sign, comma-grouped integer part, a dot and exactly
two decimal digits, rounding half-even. -/
def fixed2Chars (d : Dec) : List Char :=
  let n := roundHalfEvenDiv (100 * d.m) (10 ^ d.e : Int)
  let a := n.natAbs
  (if n < 0 then ['-'] else []) ++
    commaGroup (natDigits (a / 100)) ++ '.' :: padZeros (natDigits (a % 100)) 2

/-- Python s.rstrip(c): remove all trailing occurrences of one character. -/
def rstripC (l : List Char) (c : Char) : List Char :=
  (l.reverse.dropWhile (fun x => x == c)).reverse

/-- format_price from branch_manager.py: empty/None/zero render empty;
otherwise convert to float; integral values use "{:,.0f}" on int(num),
non-integral use "{:,.2f}" followed by rstrip of zeros then of the dot;
unparseable values fall back to str(value). -/
def format_price (v : PyVal) : String :=
  if v = .none ∨ v = .str "" ∨ isPyZero v = true then "" else
  match toNum v with
  | some d =>
    if d.isIntegral then ⟨priceIntChars d.truncInt⟩
    else ⟨rstripC (rstripC (fixed2Chars d) '0') '.'⟩
  | Option.none => pyStr v

/-- format_number from branch_manager.py: None/empty render empty;
otherwise convert to float; zero renders empty; integral values render
str(int(num)); non-integral render str(num) with rstrip of zeros then of
the dot; unparseable values fall back to str(value). -/
def format_number (v : PyVal) : String :=
  if v = .none ∨ v = .str "" then "" else
  match toNum v with
  | some d =>
    if d.m == 0 then ""
    else if d.isIntegral then ⟨intChars d.truncInt⟩
    else ⟨rstripC (rstripC (decChars d) '0') '.'⟩
  | Option.none => pyStr v

/-- Branch health states (class BranchStatus). -/
inductive BranchStatus where
  | UNKNOWN
  | OFFLINE
  | API_DOWN
  | AUTH_ERROR
  | CONNECTED
deriving DecidableEq

/-- One article record as fetched from a branch; field access in the source
always goes through dict.get with a default, so a record with the defaults
filled in is an equivalent model of the raw dict. -/
structure Article where
  code : String
  name : String
  price : PyVal
  group_code : String
  group_name : String
  stock1 : PyVal
  stock2 : PyVal
deriving DecidableEq

/-- The per-branch per-code entry stored in all_articles (the raw dict
minus the code key, defaults already applied as in lines 1009-1016). -/
structure Fields where
  name : String
  price : PyVal
  group_code : String
  group_name : String
  stock1 : PyVal
  stock2 : PyVal
deriving DecidableEq

def fieldsOf (a : Article) : Fields :=
  ⟨a.name, a.price, a.group_code, a.group_name, a.stock1, a.stock2⟩

/-- A configured branch with its mutable runtime state (class Branch). -/
structure Branch where
  name : String
  enabled : Bool
  is_reference : Bool
  status : BranchStatus
  articles : List Article
deriving DecidableEq

/-- The four comparison dimensions of the compare combo box
(nam/price/group/stock). -/
inductive CompareType where
  | name
  | price
  | group
  | stock
deriving DecidableEq

/-- Association-list lookup, first match (Python dict read). -/
def lookupA : List (String × Fields) → String → Option Fields
  | [], _ => Option.none
  | (k, v) :: rest, key => if k = key then some v else lookupA rest key

/-- Python dict write: overwrite in place if the key exists (keeping its
insertion position), else append at the end. -/
def setA : List (String × Fields) → String → Fields → List (String × Fields)
  | [], k, v => [(k, v)]
  | (k, v) :: rest, key, val =>
    if k = key then (key, val) :: rest else (k, v) :: setA rest key val

/-- One iteration of the collection loop of update_table (lines 1000-1016):
create the entry for a new code at the end, then store this branch's raw
fields under the branch name. -/
def insertArt (acc : List (String × List (String × Fields))) (bname : String) (a : Article) :
    List (String × List (String × Fields)) :=
  match acc with
  | [] => [(a.code, setA [] bname (fieldsOf a))]
  | (c, bm) :: rest =>
    if c = a.code then (c, setA bm bname (fieldsOf a)) :: rest
    else (c, bm) :: insertArt rest bname a

/-- The all_articles index: iterate enabled branches in registry order and
their articles in fetch order. -/
def all_articles (enabled : List Branch) : List (String × List (String × Fields)) :=
  enabled.foldl (fun acc b => b.articles.foldl (fun acc2 a => insertArt acc2 b.name a) acc) []

/-- Dimension-specific value extraction (lines 1057-1069), including the
dict.get defaults used when the branch has no data for the code. -/
def extractValue (cmp : CompareType) (f : Option Fields) : PyVal :=
  match f with
  | some fl =>
    match cmp with
    | .name => .str fl.name
    | .price => fl.price
    | .group => .str (if fl.group_name != "" then fl.group_name else fl.group_code)
    | .stock => fl.stock1
  | Option.none =>
    match cmp with
    | .name => .str ""
    | .price => .int 0
    | .group => .str ""
    | .stock => .int 0

/-- One step of the diff loop state (first_value, has_diff) of lines
1073-1076: remember the first truthy value; once it exists, latch has_diff
as soon as a later truthy value has a different str(). -/
def diffStep (st : Option PyVal × Bool) (v : PyVal) : Option PyVal × Bool :=
  match st.1 with
  | Option.none => if v.truthy then (some v, st.2) else st
  | some f => if v.truthy && (pyStr v != pyStr f) then (some f, true) else st

/-- The has_diff flag computed by update_table for one row's values. -/
def has_diff_compute (vs : List PyVal) : Bool :=
  (vs.foldl diffStep (Option.none, false)).2

/-- reference_name resolution (lines 1051-1055): the reference branch's
name field if that branch has the code, else the first stored branch's
name field, else the empty string. -/
def refNameOf (refb : Option String) (bmap : List (String × Fields)) : String :=
  match refb with
  | some rn =>
    match lookupA bmap rn with
    | some fl => fl.name
    | Option.none => match bmap with | [] => "" | (_, fl) :: _ => fl.name
  | Option.none => match bmap with | [] => "" | (_, fl) :: _ => fl.name

/-- One reconciled row. -/
structure Row where
  code : String
  ref_name : String
  values : List PyVal
  has_diff : Bool
deriving DecidableEq

/-- Build the row for one all_articles entry (lines 1045-1086, before the
diff-only filter). -/
def mkRow (refb : Option String) (enabled : List Branch) (cmp : CompareType)
    (entry : String × List (String × Fields)) : Row :=
  let values := enabled.map (fun b => extractValue cmp (lookupA entry.2 b.name))
  { code := entry.1
    ref_name := refNameOf refb entry.2
    values := values
    has_diff := has_diff_compute values }

/-- rows_data of update_table: enabled branches, reference branch lookup
over all branches (line 1022), row construction per code in insertion
order, with the diff-only continue of line 1078 embedded as a guard. -/
def rows_data (branches : List Branch) (cmp : CompareType) (diffOnly : Bool) : List Row :=
  let enabled := branches.filter (fun b => b.enabled)
  let refb := (branches.find? (fun b => b.is_reference && b.enabled)).map (fun b => b.name)
  (all_articles enabled).filterMap (fun e =>
    let r := mkRow refb enabled cmp e
    if diffOnly && !r.has_diff then Option.none else some r)

/-- The pagination slice of lines 1091-1096: a page size of 0 means all
rows; otherwise the 1-based slice [size*(page-1), size*(page-1)+size). -/
def paginateRows (size page : Nat) (rows : List Row) : List Row :=
  if 0 < size then ((rows.drop ((page - 1) * size)).take size) else rows

/-- display_data of update_table: the paginated reconciled rows. -/
def display_data (branches : List Branch) (cmp : CompareType) (diffOnly : Bool)
    (size page : Nat) : List Row :=
  paginateRows size page (rows_data branches cmp diffOnly)

/-- Outcome of the unauthenticated GET /ping probe: any raised exception
(connection failure, timeout), or a response with its HTTP status code. -/
inductive PingOutcome where
  | exc
  | ok (code : Nat)
deriving DecidableEq

/-- The projections of the /check/db response dict that check_health reads:
truthiness of result.get("success") and result.get("status", ""). -/
structure ApiResponse where
  success : Bool
  status : String
deriving DecidableEq

/-- The fixed timeout passed to the ping request in check_health. -/
def ping_timeout : Nat := 5

/-- check_health of HolooAPIClient (lines 199-215): ping exception means
OFFLINE; non-200 ping means API_DOWN; then the authenticated /check/db
probe: a non-success with status DB_AUTH_ERROR or DB_NOT_FOUND means
AUTH_ERROR, any other non-success means API_DOWN, success means CONNECTED. -/
def check_health (ping : PingOutcome) (db : ApiResponse) : BranchStatus :=
  match ping with
  | .exc => .OFFLINE
  | .ok c =>
    if c ≠ 200 then .API_DOWN
    else if !db.success then
      if db.status = "DB_AUTH_ERROR" ∨ db.status = "DB_NOT_FOUND" then .AUTH_ERROR
      else .API_DOWN
    else .CONNECTED

/-- Outcome of one transport attempt inside _request: a raised
requests.exceptions.ConnectionError, a Timeout, any other exception with
its message, or a decoded JSON response. -/
inductive AttemptOutcome (α : Type) where
  | connErr
  | timeout
  | otherExc (msg : String)
  | response (r : α)
deriving DecidableEq

/-- The error message _request records for a failed attempt (the literal
Persian strings of lines 188-192). -/
def attemptError {α : Type} : AttemptOutcome α → Option String
  | .connErr => some "عدم دسترسی به سرور"
  | .timeout => some "تایم‌اوت درخواست"
  | .otherExc m => some m
  | .response _ => Option.none

/-- Whether an attempt produced a decoded response. -/
def AttemptOutcome.isResponse {α : Type} : AttemptOutcome α → Bool
  | .response _ => true
  | _ => false

/-- Result of _request: the decoded JSON of the first successful attempt,
or the failure dict carrying the last recorded error. -/
inductive ReqResult (α : Type) where
  | ok (r : α)
  | fail (err : Option String)
deriving DecidableEq

/-- The retry loop of _request (lines 172-197), parametrised by a transport
oracle giving the outcome of each attempt number: return the first decoded
response immediately; otherwise record the error and move on; when the
given number of attempts is exhausted return the failure dict with the
last error (None if no attempt was ever made). -/
def requestFrom {α : Type} (t : Nat → AttemptOutcome α) (attempt : Nat) :
    Nat → Option String → ReqResult α
  | 0, lastErr => .fail lastErr
  | r+1, _ =>
    match t attempt with
    | .response j => .ok j
    | o => requestFrom t (attempt + 1) r (attemptError o)

/-- _request with retry attempts starting at 0 and no error recorded yet. -/
def py_request {α : Type} (t : Nat → AttemptOutcome α) (retry : Nat) : ReqResult α :=
  requestFrom t 0 retry Option.none

/-- One pending change record of the ledger. -/
structure Change where
  code : String
  branch : String
  field : String
  old_value : PyVal
  new_value : PyVal
deriving DecidableEq

/-- One item of a batch update request: the code plus the optional editable
fields (present iff the corresponding key is set in the dict). -/
structure UpdateItem where
  code : String
  name : Option PyVal
  price : Option PyVal
  group_code : Option PyVal
deriving DecidableEq

/-- The field translation of do_apply_changes (lines 1213-1221): the
display field name selects which single wire field the new value goes to;
an unrecognised field name leaves only the code. -/
def toItem (ch : Change) : UpdateItem :=
  { code := ch.code
    name := if ch.field = "نام" then some ch.new_value else Option.none
    price := if ch.field = "قیمت" then some ch.new_value else Option.none
    group_code := if ch.field = "گروه" then some ch.new_value else Option.none }

/-- Python changes_by_branch building block: append the change to its
branch's list if the branch key exists (keeping dict order), else append a
new group at the end. -/
def appendGroup (gs : List (String × List Change)) (bn : String) (ch : Change) :
    List (String × List Change) :=
  match gs with
  | [] => [(bn, [ch])]
  | (k, cs) :: rest =>
    if k = bn then (k, cs ++ [ch]) :: rest else (k, cs) :: appendGroup rest bn ch

/-- Grouping of the pending changes by branch name, first-appearance order
(lines 1193-1199). -/
def group_by_branch (pending : List Change) : List (String × List Change) :=
  pending.foldl (fun gs ch => appendGroup gs ch.branch ch) []

/-- The projections of a batch_update response that do_apply_changes reads:
truthiness of result.get("success") and the summary counts (get default 0). -/
structure BatchResp where
  success : Bool
  success_count : Nat
  failed_count : Nat
deriving DecidableEq

/-- A network oracle for batch updates: branch name and items to the
response projections. -/
def BatchNet : Type := String → List UpdateItem → BatchResp

/-- Per-group contribution of one dispatch iteration. -/
structure GroupOutcome where
  succ : Nat
  fail : Nat
  calls : List (String × List UpdateItem)
deriving DecidableEq

/-- One iteration of the dispatch loop of do_apply_changes (lines
1203-1232): a missing or non-CONNECTED branch fails the whole group with
no network call; otherwise one batch_update call is made, folding in the
server counts on success and failing the whole batch otherwise. -/
def applyGroup (branches : List Branch) (net : BatchNet) (bn : String)
    (chs : List Change) : GroupOutcome :=
  match branches.find? (fun b => b.name = bn) with
  | Option.none => ⟨0, chs.length, []⟩
  | some b =>
    if b.status ≠ .CONNECTED then ⟨0, chs.length, []⟩
    else
      let items := chs.map toItem
      let r := net bn items
      if r.success then ⟨r.success_count, r.failed_count, [(bn, items)]⟩
      else ⟨0, items.length, [(bn, items)]⟩

/-- The dispatch loop accumulator: running success count, fail count, and
the network calls made so far. -/
def applyLoop (branches : List Branch) (net : BatchNet) :
    List (String × List Change) → Nat × Nat × List (String × List UpdateItem) →
    Nat × Nat × List (String × List UpdateItem)
  | [], st => st
  | g :: rest, st =>
    let o := applyGroup branches net g.1 g.2
    applyLoop branches net rest (st.1 + o.succ, st.2.1 + o.fail, st.2.2 ++ o.calls)

/-- The branches fetch_all_data actually refetches (line 957): enabled and
currently CONNECTED; when this list is empty the routine shows a warning
and returns without fetching anything, so the refetched set is this list
in every case. -/
def fetchSelection (branches : List Branch) : List String :=
  (branches.filter (fun b => b.enabled && b.status == .CONNECTED)).map (fun b => b.name)

/-- Everything observable about one dispatch cycle of do_apply_changes
(lines 1185-1249): the reported tally, the network calls made, the ledger
contents afterwards, and the branches refetched by the triggered
fetch_all_data. -/
structure CycleResult where
  successCount : Nat
  failCount : Nat
  calls : List (String × List UpdateItem)
  pendingAfter : List Change
  refetched : List String
deriving DecidableEq

/-- do_apply_changes: group the ledger by branch, dispatch each group,
unconditionally clear the ledger, and trigger fetch_all_data. -/
def do_apply_changes (branches : List Branch) (net : BatchNet)
    (pending : List Change) : CycleResult :=
  let st := applyLoop branches net (group_by_branch pending) (0, 0, [])
  { successCount := st.1
    failCount := st.2.1
    calls := st.2.2
    pendingAfter := []
    refetched := fetchSelection branches }

/-- Outcome of one UPDATE statement executed by the middleware for one
item: the affected row count, or a raised exception message. -/
inductive ExecOutcome where
  | rows (n : Nat)
  | exc (msg : String)
deriving DecidableEq

/-- The update dict built for one item in batch_update (lines 944-950):
wire field names in the fixed key order name, price, group_code. -/
def itemUpdates (it : UpdateItem) : List (String × PyVal) :=
  (match it.name with | some v => [("A_Name", v)] | Option.none => []) ++
  (match it.price with | some v => [("Sel_Price", v)] | Option.none => []) ++
  (match it.group_code with | some v => [("M_Code", v)] | Option.none => [])

/-- The two result lists accumulated by batch_update: successes carry the
code and updated field names, failures carry the code and an error text. -/
structure BatchState where
  success : List (String × List String)
  failed : List (String × String)
deriving DecidableEq

/-- One iteration of the batch_update item loop (lines 934-980),
parametrised by a database oracle giving the outcome of the statement that
would be executed for the item at this position: a missing code or an
empty update set fails without touching the database; otherwise a positive
row count succeeds, zero rows or an exception fails. -/
def processItem (db : Nat → ExecOutcome) (idx : Nat) (it : UpdateItem)
    (st : BatchState) : BatchState :=
  if it.code = "" then { st with failed := st.failed ++ [("", "کد کالا ارسال نشده")] }
  else
    let ups := itemUpdates it
    if ups = [] then { st with failed := st.failed ++ [(it.code, "هیچ فیلدی برای ویرایش نیست")] }
    else
      match db idx with
      | .rows n =>
        if 0 < n then { st with success := st.success ++ [(it.code, ups.map (fun u => u.1))] }
        else { st with failed := st.failed ++ [(it.code, "کالا پیدا نشد")] }
      | .exc m => { st with failed := st.failed ++ [(it.code, m)] }

/-- The item loop of batch_update with the position index threaded. -/
def batchLoop (db : Nat → ExecOutcome) : Nat → List UpdateItem → BatchState → BatchState
  | _, [], st => st
  | i, it :: rest, st => batchLoop db (i + 1) rest (processItem db i it st)

/-- Response of the batch/update endpoint: the EMPTY_LIST rejection, or
the result lists with the summary total, success_count and failed_count.
The model covers runs in which the database connection (and final commit)
succeed; per-statement failures are the oracle's exc outcomes. -/
inductive BatchEndpointResult where
  | emptyErr
  | ok (st : BatchState) (total succ fail : Nat)
deriving DecidableEq

/-- batch_update of holoo_api.py (lines 897-996). -/
def batch_update (db : Nat → ExecOutcome) (items : List UpdateItem) : BatchEndpointResult :=
  if items = [] then .emptyErr
  else
    let st := batchLoop db 0 items ⟨[], []⟩
    .ok st items.length st.success.length st.failed.length

/-- Spec-side: the dimension-specific display formatting of a value (lines
1134-1140): format_price for the price dimension, format_number for stock,
plain str for truthy values of the other dimensions and empty otherwise. -/
def formatted_value (cmp : CompareType) (v : PyVal) : String :=
  match cmp with
  | .price => format_price v
  | .stock => format_number v
  | _ => if v.truthy then pyStr v else ""

/-- Spec-side: the disagreement predicate of the specification: at least
two branches both carry a non-empty (truthy) value and their formatted
values differ. -/
def spec_has_diff (cmp : CompareType) (vs : List PyVal) : Bool :=
  vs.any (fun v => vs.any (fun w =>
    v.truthy && w.truthy && (formatted_value cmp v != formatted_value cmp w)))

/-- Append a code if it has not been seen yet. -/
def pushNew (l : List String) (c : String) : List String :=
  if c ∈ l then l else l ++ [c]

/-- Spec-side: the distinct codes of a list in first-seen order. -/
def dedup_first (codes : List String) : List String := codes.foldl pushNew []

/-- Spec-side: all codes appearing in enabled branches' snapshots, in
registry order then fetch order. -/
def enabled_codes (branches : List Branch) : List String :=
  (branches.filter (fun b => b.enabled)).flatMap (fun b => b.articles.map (fun a => a.code))

/-- Number of characters after the first dot of a rendered value (0 when
there is no dot): the count of displayed decimal places. -/
def fracLenL (l : List Char) : Nat :=
  ((l.dropWhile (fun c => c != '.')).drop 1).length

def exArticle (code nm : String) (pr : PyVal) : Article :=
  { code := code, name := nm, price := pr, group_code := "", group_name := "",
    stock1 := .int 0, stock2 := .int 0 }

def exBranchA : Branch :=
  { name := "A", enabled := true, is_reference := true, status := .CONNECTED,
    articles := [exArticle "1001" "X" (.int 100)] }

def exBranchB : Branch :=
  { name := "B", enabled := true, is_reference := false, status := .CONNECTED,
    articles := [exArticle "1001" "Y" (.float ⟨100, 0⟩)] }

/-! Helper lemmas. -/

theorem filterMap_some_eq_map {α β : Type} (g : α → β) (l : List α) :
    l.filterMap (fun e => some (g e)) = l.map g := by
  induction l with
  | nil => rfl
  | cons a t ih => simp [List.filterMap_cons, ih]

theorem filterMap_guard_eq_filter {α : Type} (g : α → Row) (l : List α) :
    l.filterMap (fun e => if (g e).has_diff = false then Option.none else some (g e)) =
      (l.map g).filter (fun r => r.has_diff) := by
  induction l with
  | nil => rfl
  | cons a t ih =>
    by_cases h : (g a).has_diff
    · simp only [List.filterMap_cons, List.map_cons, List.filter_cons, h]
      simp only [ih]
      simp
    · simp only [List.filterMap_cons, List.map_cons, List.filter_cons,
        Bool.not_eq_true] at h ⊢
      simp only [h, ih]
      simp

theorem pages_take {α : Type} (P : Nat) :
    ∀ (N : Nat) (rows : List α),
      ((List.range N).map (fun i => (rows.drop (i * P)).take P)).flatten = rows.take (N * P) := by
  intro N
  induction N with
  | zero => intro rows; simp
  | succ n ih =>
    intro rows
    rw [List.range_succ, List.map_append, List.flatten_append, ih]
    simp only [List.map_cons, List.map_nil, List.flatten_cons, List.flatten_nil, List.append_nil]
    rw [Nat.succ_mul, List.take_add]

theorem req_ok {α : Type} (t : Nat → AttemptOutcome α) (j : α) :
    ∀ (k a n : Nat) (le : Option String),
      (∀ i, i < k → (t (a + i)).isResponse = false) → t (a + k) = .response j → k < n →
      requestFrom t a n le = .ok j := by
  intro k
  induction k with
  | zero =>
    intro a n le _ hresp hlt
    cases n with
    | zero => omega
    | succ m =>
      show requestFrom t a (m + 1) le = .ok j
      rw [requestFrom]
      simp only [Nat.add_zero] at hresp
      rw [hresp]
  | succ k ih =>
    intro a n le hfail hresp hlt
    cases n with
    | zero => omega
    | succ m =>
      show requestFrom t a (m + 1) le = .ok j
      rw [requestFrom]
      have h0 : (t a).isResponse = false := by
        have := hfail 0 (by omega)
        simpa using this
      cases ho : t a with
      | response r => rw [ho] at h0; simp [AttemptOutcome.isResponse] at h0
      | connErr =>
        exact ih (a + 1) m _ (fun i hi => by
            have := hfail (i + 1) (by omega)
            simpa [Nat.add_assoc, Nat.add_comm 1 i] using this)
          (by have := hresp; rw [show a + (k + 1) = a + 1 + k by omega] at this; exact this)
          (by omega)
      | timeout =>
        exact ih (a + 1) m _ (fun i hi => by
            have := hfail (i + 1) (by omega)
            simpa [Nat.add_assoc, Nat.add_comm 1 i] using this)
          (by have := hresp; rw [show a + (k + 1) = a + 1 + k by omega] at this; exact this)
          (by omega)
      | otherExc msg =>
        exact ih (a + 1) m _ (fun i hi => by
            have := hfail (i + 1) (by omega)
            simpa [Nat.add_assoc, Nat.add_comm 1 i] using this)
          (by have := hresp; rw [show a + (k + 1) = a + 1 + k by omega] at this; exact this)
          (by omega)

theorem req_exhaust {α : Type} (t : Nat → AttemptOutcome α) :
    ∀ (n a : Nat) (le : Option String),
      0 < n → (∀ i, i < n → (t (a + i)).isResponse = false) →
      requestFrom t a n le = .fail (attemptError (t (a + n - 1))) := by
  intro n
  induction n with
  | zero => intro a le h; omega
  | succ m ih =>
    intro a le _ hfail
    show requestFrom t a (m + 1) le = _
    rw [requestFrom]
    have h0 : (t a).isResponse = false := by
      have := hfail 0 (by omega)
      simpa using this
    cases m with
    | zero =>
      cases ho : t a with
      | response r => rw [ho] at h0; simp [AttemptOutcome.isResponse] at h0
      | connErr => simp [requestFrom, ho]
      | timeout => simp [requestFrom, ho]
      | otherExc msg => simp [requestFrom, ho]
    | succ p =>
      have step : ∀ o : AttemptOutcome α, t a = o → o.isResponse = false →
          requestFrom t (a + 1) (p + 1) (attemptError o) =
            .fail (attemptError (t (a + (p + 1 + 1) - 1))) := by
        intro o ho hno
        have := ih (a + 1) (attemptError o) (by omega) (fun i hi => by
          have := hfail (i + 1) (by omega)
          simpa [Nat.add_assoc, Nat.add_comm 1 i] using this)
        rw [this]
        congr 1
        congr 1
        congr 1
        omega
      cases ho : t a with
      | response r => rw [ho] at h0; simp [AttemptOutcome.isResponse] at h0
      | connErr => exact step _ ho (by simp [AttemptOutcome.isResponse])
      | timeout => exact step _ ho (by simp [AttemptOutcome.isResponse])
      | otherExc msg => exact step _ ho (by simp [AttemptOutcome.isResponse])

theorem batchLoop_len (db : Nat → ExecOutcome) :
    ∀ (l : List UpdateItem) (i : Nat) (st : BatchState),
      (batchLoop db i l st).success.length + (batchLoop db i l st).failed.length =
        st.success.length + st.failed.length + l.length := by
  intro l
  induction l with
  | nil => intro i st; simp [batchLoop]
  | cons it rest ih =>
    intro i st
    show (batchLoop db (i + 1) rest (processItem db i it st)).success.length +
      (batchLoop db (i + 1) rest (processItem db i it st)).failed.length = _
    rw [ih]
    have hstep : (processItem db i it st).success.length + (processItem db i it st).failed.length =
        st.success.length + st.failed.length + 1 := by
      cases hdb : db i with
      | rows n =>
        by_cases h1 : it.code = ""
        · simp [processItem, h1]
          all_goals omega
        · by_cases h2 : itemUpdates it = []
          · simp [processItem, h1, h2]
            all_goals omega
          · by_cases h3 : 0 < n
            · simp [processItem, h1, h2, hdb, h3]
              all_goals omega
            · simp [processItem, h1, h2, hdb, h3]
              all_goals omega
      | exc m =>
        by_cases h1 : it.code = ""
        · simp [processItem, h1]
          all_goals omega
        · by_cases h2 : itemUpdates it = []
          · simp [processItem, h1, h2]
            all_goals omega
          · simp [processItem, h1, h2, hdb]
            all_goals omega
    simp only [List.length_cons]
    omega

/-! Claim theorems. -/

/-- C2: check_health implements the specified decision table: ping
exception (connect failure / timeout, probe timeout fixed at 5 seconds)
gives OFFLINE; a non-200 ping response gives API_DOWN; otherwise the
authenticated db probe decides: non-success with reported status
DB_AUTH_ERROR or DB_NOT_FOUND gives AUTH_ERROR, any other non-success
gives API_DOWN, and only a successful probe gives CONNECTED. -/
theorem claim_C2 :
    ping_timeout = 5 ∧
    (∀ db : ApiResponse, check_health .exc db = .OFFLINE) ∧
    (∀ (c : Nat) (db : ApiResponse), c ≠ 200 → check_health (.ok c) db = .API_DOWN) ∧
    (∀ db : ApiResponse, db.success = false →
      (db.status = "DB_AUTH_ERROR" ∨ db.status = "DB_NOT_FOUND") →
      check_health (.ok 200) db = .AUTH_ERROR) ∧
    (∀ db : ApiResponse, db.success = false →
      db.status ≠ "DB_AUTH_ERROR" → db.status ≠ "DB_NOT_FOUND" →
      check_health (.ok 200) db = .API_DOWN) ∧
    (∀ db : ApiResponse, db.success = true → check_health (.ok 200) db = .CONNECTED) := by
  refine ⟨rfl, fun db => rfl, ?_, ?_, ?_, ?_⟩
  · intro c db hc
    simp [check_health, hc]
  · intro db hs hst
    simp [check_health, hs, hst]
  · intro db hs h1 h2
    simp [check_health, hs, h1, h2]
  · intro db hs
    simp [check_health, hs]

/-- Witness for C2 at concrete probe outcomes. -/
theorem claim_C2_witness :
    check_health .exc ⟨true, ""⟩ = .OFFLINE ∧
    check_health (.ok 404) ⟨true, ""⟩ = .API_DOWN ∧
    check_health (.ok 200) ⟨false, "DB_AUTH_ERROR"⟩ = .AUTH_ERROR ∧
    check_health (.ok 200) ⟨false, "DB_CONNECTION_ERROR"⟩ = .API_DOWN ∧
    check_health (.ok 200) ⟨true, "DB_CONNECTED"⟩ = .CONNECTED :=
  ⟨claim_C2.2.1 _,
   claim_C2.2.2.1 404 _ (by decide),
   claim_C2.2.2.2.1 _ rfl (Or.inl rfl),
   claim_C2.2.2.2.2.1 _ rfl (by decide) (by decide),
   claim_C2.2.2.2.2.2 _ rfl⟩

/-- C3: for every authenticated request, a transport that fails on the
first two attempts and responds on the third yields a successful result
with retry_count 3, and with retry_count 2 yields the failure carrying the
error of the second attempt; any decoded response (even an error payload)
is returned immediately after any prefix of transport failures; and when
all attempts fail, the failure surfaces the last observed error. -/
theorem claim_C3 {α : Type} :
    (∀ (t : Nat → AttemptOutcome α) (j : α),
      (t 0).isResponse = false → (t 1).isResponse = false → t 2 = .response j →
      py_request t 3 = .ok j ∧ py_request t 2 = .fail (attemptError (t 1))) ∧
    (∀ (t : Nat → AttemptOutcome α) (k n : Nat) (j : α),
      (∀ i, i < k → (t i).isResponse = false) → t k = .response j → k < n →
      py_request t n = .ok j) ∧
    (∀ (t : Nat → AttemptOutcome α) (n : Nat),
      0 < n → (∀ i, i < n → (t i).isResponse = false) →
      py_request t n = .fail (attemptError (t (n - 1)))) := by
  refine ⟨?_, ?_, ?_⟩
  · intro t j h0 h1 h2
    constructor
    · exact req_ok t j 2 0 3 Option.none
        (fun i hi => by interval_cases i <;> simpa) (by simpa) (by omega)
    · have := req_exhaust t 2 0 Option.none (by omega)
        (fun i hi => by interval_cases i <;> simpa)
      simpa [py_request] using this
  · intro t k n j hfail hresp hlt
    exact req_ok t j k 0 n Option.none (fun i hi => by simpa using hfail i hi)
      (by simpa) hlt
  · intro t n hn hfail
    have := req_exhaust t n 0 Option.none hn (fun i hi => by simpa using hfail i hi)
    simpa [py_request] using this

/-- Concrete transport for the C3 witness: connection error, then timeout,
then a response. -/
def tEx : Nat → AttemptOutcome Nat :=
  fun n => if n = 0 then .connErr else if n = 1 then .timeout else .response 7

/-- Witness for C3: the simulated fail-twice-then-succeed transport. -/
theorem claim_C3_witness :
    py_request tEx 3 = .ok 7 ∧ py_request tEx 2 = .fail (some "تایم‌اوت درخواست") := by
  have h := (claim_C3 (α := Nat)).1 tEx 7 (by decide) (by decide) (by decide)
  exact ⟨h.1, h.2⟩

/-- C5: pagination takes the 1-based slice of the reconciled rows; size 0
returns all rows in one page; a page beyond the range yields the empty
slice; and concatenating all pages in order (any positive page size)
reproduces the unpaginated sequence exactly. -/
theorem claim_C5 :
    (∀ (br : List Branch) (cmp : CompareType) (d : Bool) (page : Nat),
      display_data br cmp d 0 page = rows_data br cmp d) ∧
    (∀ (br : List Branch) (cmp : CompareType) (d : Bool) (P page : Nat), 0 < P →
      display_data br cmp d P page = ((rows_data br cmp d).drop ((page - 1) * P)).take P) ∧
    (∀ (br : List Branch) (cmp : CompareType) (d : Bool) (P page : Nat), 0 < P →
      (rows_data br cmp d).length ≤ (page - 1) * P →
      display_data br cmp d P page = []) ∧
    (∀ (br : List Branch) (cmp : CompareType) (d : Bool) (P N : Nat), 0 < P →
      (rows_data br cmp d).length ≤ N * P →
      ((List.range N).map (fun i => display_data br cmp d P (i + 1))).flatten =
        rows_data br cmp d) := by
  refine ⟨?_, ?_, ?_, ?_⟩
  · intro br cmp d page
    simp [display_data, paginateRows]
  · intro br cmp d P page hP
    simp [display_data, paginateRows, hP]
  · intro br cmp d P page hP hlen
    simp [display_data, paginateRows, hP, List.drop_eq_nil_of_le hlen]
  · intro br cmp d P N hP hlen
    have h1 : ∀ i : Nat, display_data br cmp d P (i + 1) =
        ((rows_data br cmp d).drop (i * P)).take P := by
      intro i
      simp [display_data, paginateRows, hP]
    calc ((List.range N).map (fun i => display_data br cmp d P (i + 1))).flatten
        = ((List.range N).map (fun i => ((rows_data br cmp d).drop (i * P)).take P)).flatten := by
          congr 1
          exact List.map_congr_left (fun i _ => h1 i)
      _ = (rows_data br cmp d).take (N * P) := pages_take P N _
      _ = rows_data br cmp d := List.take_of_length_le hlen

/-- Concrete branch with three articles for the C5 witness. -/
def pagBranch : Branch :=
  { name := "A", enabled := true, is_reference := false, status := .CONNECTED,
    articles := [exArticle "1" "a" (.int 1), exArticle "2" "b" (.int 2),
      exArticle "3" "c" (.int 3)] }

/-- Witness for C5 at a concrete snapshot with three rows and page size 2. -/
theorem claim_C5_witness :
    display_data [pagBranch] .name false 0 1 = rows_data [pagBranch] .name false ∧
    display_data [pagBranch] .name false 2 9 = [] ∧
    ((List.range 2).map (fun i => display_data [pagBranch] .name false 2 (i + 1))).flatten =
      rows_data [pagBranch] .name false := by
  refine ⟨claim_C5.1 _ _ _ _, claim_C5.2.2.1 _ _ _ 2 9 (by decide) (by decide),
    claim_C5.2.2.2 _ _ _ 2 2 (by decide) (by decide)⟩

/-- C6: with the same snapshots and dimension, the diff-only row sequence
is exactly the has_diff-filtered unfiltered sequence: a subsequence, same
order, same row contents. -/
theorem claim_C6 :
    ∀ (br : List Branch) (cmp : CompareType),
      rows_data br cmp true = (rows_data br cmp false).filter (fun r => r.has_diff) := by
  intro br cmp
  unfold rows_data
  simp only [Bool.true_and, Bool.false_and, Bool.false_eq_true, if_false, Bool.not_eq_true']
  rw [filterMap_some_eq_map]
  exact filterMap_guard_eq_filter _ _

/-- C10: for a non-empty item list (and a run where the database
connection succeeds), the batch/update endpoint places every submitted
item in exactly one of the success and failed result lists (items with a
missing code or no editable field go to failed), so success_count plus
failed_count equals total equals the number of submitted items. -/
theorem claim_C10 :
    ∀ (db : Nat → ExecOutcome) (items : List UpdateItem), items ≠ [] →
      batch_update db items = .ok (batchLoop db 0 items ⟨[], []⟩) items.length
          (batchLoop db 0 items ⟨[], []⟩).success.length
          (batchLoop db 0 items ⟨[], []⟩).failed.length ∧
      (batchLoop db 0 items ⟨[], []⟩).success.length +
          (batchLoop db 0 items ⟨[], []⟩).failed.length = items.length ∧
      (∀ (i : Nat) (it : UpdateItem) (st : BatchState),
        it.code = "" ∨ itemUpdates it = [] →
        (processItem db i it st).success = st.success ∧
        (processItem db i it st).failed.length = st.failed.length + 1) := by
  intro db items hne
  refine ⟨by simp [batch_update, hne], ?_, ?_⟩
  · have := batchLoop_len db items 0 ⟨[], []⟩
    simpa using this
  · intro i it st h
    rcases h with h | h
    · unfold processItem
      simp [h]
    · unfold processItem
      by_cases hc : it.code = ""
      · simp [hc]
      · simp [hc, h]

/-- Concrete database oracle for the C10 witness. -/
def dbEx : Nat → ExecOutcome := fun _ => .rows 1

/-- Concrete item list for the C10 witness: one valid item, one missing
code, one with no editable field. -/
def itemsEx : List UpdateItem :=
  [⟨"10", some (.int 1), Option.none, Option.none⟩,
   ⟨"", Option.none, Option.none, Option.none⟩,
   ⟨"20", Option.none, Option.none, Option.none⟩]

/-- Witness for C10 at the concrete item list. -/
theorem claim_C10_witness :
    (batchLoop dbEx 0 itemsEx ⟨[], []⟩).success.length +
      (batchLoop dbEx 0 itemsEx ⟨[], []⟩).failed.length = itemsEx.length :=
  (claim_C10 dbEx itemsEx (by decide)).2.1

theorem any_filter_truthy (p : PyVal → Bool) :
    ∀ l : List PyVal, (l.filter (fun v => v.truthy)).any p = l.any (fun v => v.truthy && p v) := by
  intro l
  induction l with
  | nil => rfl
  | cons v t ih =>
    by_cases hv : v.truthy
    · simp [List.filter_cons, hv, ih]
    · simp [List.filter_cons, hv, ih]

theorem foldl_diffStep_some (f : PyVal) :
    ∀ (vs : List PyVal) (d : Bool),
      vs.foldl diffStep (some f, d) =
        (some f, d || vs.any (fun v => v.truthy && (pyStr v != pyStr f))) := by
  intro vs
  induction vs with
  | nil => intro d; simp
  | cons v t ih =>
    intro d
    have hstep : diffStep (some f, d) v =
        (some f, d || (v.truthy && (pyStr v != pyStr f))) := by
      unfold diffStep
      by_cases hc : (v.truthy && (pyStr v != pyStr f)) = true
      · simp [hc]
      · simp only [Bool.not_eq_true] at hc
        simp [hc]
    show List.foldl diffStep (diffStep (some f, d) v) t = _
    rw [hstep, ih]
    simp [Bool.or_assoc]

theorem has_diff_iff (vs : List PyVal) :
    has_diff_compute vs = true ↔
      ∃ v ∈ vs, ∃ w ∈ vs, v.truthy = true ∧ w.truthy = true ∧ pyStr v ≠ pyStr w := by
  induction vs with
  | nil => simp [has_diff_compute]
  | cons v t ih =>
    by_cases hv : v.truthy
    · have hl : has_diff_compute (v :: t) =
          t.any (fun w => w.truthy && (pyStr w != pyStr v)) := by
        show (List.foldl diffStep (diffStep (Option.none, false) v) t).2 = _
        rw [show diffStep (Option.none, false) v = (some v, false) from by
          unfold diffStep; simp [hv]]
        rw [foldl_diffStep_some]
        simp
      rw [hl]
      constructor
      · intro h
        obtain ⟨w, hw, hwp⟩ := List.any_eq_true.mp h
        refine ⟨v, List.mem_cons_self _ _, w, List.mem_cons_of_mem _ hw, hv, ?_, ?_⟩
        · have h2 : w.truthy = true ∧ (pyStr w != pyStr v) = true := by simpa using hwp
          exact h2.1
        · have h2 : w.truthy = true ∧ (pyStr w != pyStr v) = true := by simpa using hwp
          have h3 := h2.2
          exact fun he => by simp [he] at h3
      · rintro ⟨x, hx, y, hy, hxt, hyt, hxy⟩
        apply List.any_eq_true.mpr
        by_cases hxv : pyStr x = pyStr v
        · have hyv : pyStr y ≠ pyStr v := fun he => hxy (hxv.trans he.symm)
          have hyn : y ≠ v := fun he => hyv (by rw [he])
          have hyt2 : y ∈ t := by
            rcases List.mem_cons.mp hy with h | h
            · exact absurd h hyn
            · exact h
          exact ⟨y, hyt2, by simp [hyt, hyv]⟩
        · have hxn : x ≠ v := fun he => hxv (by rw [he])
          have hxt2 : x ∈ t := by
            rcases List.mem_cons.mp hx with h | h
            · exact absurd h hxn
            · exact h
          exact ⟨x, hxt2, by simp [hxt, hxv]⟩
    · have hl : has_diff_compute (v :: t) = has_diff_compute t := by
        show (List.foldl diffStep (diffStep (Option.none, false) v) t).2 = _
        rw [show diffStep (Option.none, false) v = (Option.none, false) from by
          unfold diffStep; simp [hv]]
        rfl
      rw [hl, ih]
      constructor
      · rintro ⟨x, hx, y, hy, hprops⟩
        exact ⟨x, List.mem_cons_of_mem _ hx, y, List.mem_cons_of_mem _ hy, hprops⟩
      · rintro ⟨x, hx, y, hy, hxt, hyt, hxy⟩
        have hxv : x ≠ v := fun he => by rw [he] at hxt; rw [hxt] at hv; exact hv rfl
        have hyv : y ≠ v := fun he => by rw [he] at hyt; rw [hyt] at hv; exact hv rfl
        have hx2 : x ∈ t := by
          rcases List.mem_cons.mp hx with h | h
          · exact absurd h hxv
          · exact h
        have hy2 : y ∈ t := by
          rcases List.mem_cons.mp hy with h | h
          · exact absurd h hyv
          · exact h
        exact ⟨x, hx2, y, hy2, hxt, hyt, hxy⟩

/-- C1 (amended): for every reconciliation pass and reconciled row,
has_diff is true iff at least two enabled branches both carry a truthy
value for the active dimension whose raw str() renderings differ (the
comparison of line 1075 uses str(value), not the dimension-specific
display formatting). -/
theorem claim_C1 :
    ∀ (br : List Branch) (cmp : CompareType) (d : Bool) (row : Row),
      row ∈ rows_data br cmp d →
      (row.has_diff = true ↔ ∃ v ∈ row.values, ∃ w ∈ row.values,
        v.truthy = true ∧ w.truthy = true ∧ pyStr v ≠ pyStr w) := by
  intro br cmp d row hrow
  unfold rows_data at hrow
  obtain ⟨e, _, he⟩ := List.mem_filterMap.mp hrow
  by_cases hg : (d && !(mkRow ((br.find? fun b => b.is_reference && b.enabled).map
      fun b => b.name) (br.filter fun b => b.enabled) cmp e).has_diff) = true
  · rw [if_pos hg] at he
    exact absurd he (by simp)
  · rw [if_neg hg] at he
    have hrw : row = mkRow ((br.find? fun b => b.is_reference && b.enabled).map
        (fun b => b.name)) (br.filter fun b => b.enabled) cmp e := by
      exact (Option.some.inj he).symm
    subst hrw
    exact has_diff_iff _

/-- Row produced by the concrete name-dimension pass used as C1 witness. -/
def rowEx : Row :=
  { code := "1001", ref_name := "X", values := [.str "X", .str "Y"], has_diff := true }

/-- Witness for C1 at the concrete two-branch name-dimension pass. -/
theorem claim_C1_witness :
    ∃ v ∈ rowEx.values, ∃ w ∈ rowEx.values,
      v.truthy = true ∧ w.truthy = true ∧ pyStr v ≠ pyStr w :=
  (claim_C1 [exBranchA, exBranchB] .name false rowEx (by decide)).mp (by decide)

/-- Row produced by the concrete price-dimension pass that refutes C1 as
stated. -/
def cexRow : Row :=
  { code := "1001", ref_name := "X", values := [.int 100, .float ⟨100, 0⟩], has_diff := true }

/-- Counterexample to C1 as stated: two branches report the same price as
int 100 and float 100.0; both format to "100" (identical formatted
values, so the claim requires has_diff to be false), yet the pass flags
has_diff because str(100) and str(100.0) differ. -/
theorem claim_C1_counterexample :
    rows_data [exBranchA, exBranchB] .price false = [cexRow] ∧
    cexRow.has_diff = true ∧
    spec_has_diff .price cexRow.values = false ∧
    formatted_value .price (.int 100) = formatted_value .price (.float ⟨100, 0⟩) :=
  ⟨by decide, by decide, by decide, by decide⟩

theorem insertArt_keys (bn : String) (a : Article) :
    ∀ acc : List (String × List (String × Fields)),
      (insertArt acc bn a).map Prod.fst = pushNew (acc.map Prod.fst) a.code := by
  intro acc
  induction acc with
  | nil => simp [insertArt, pushNew]
  | cons p rest ih =>
    obtain ⟨c, bm⟩ := p
    by_cases h : c = a.code
    · subst h
      simp [insertArt, pushNew]
    · have h2 : ¬a.code = c := fun he => h he.symm
      by_cases hm : a.code ∈ rest.map Prod.fst
      · simp [insertArt, h, ih, pushNew, hm, h2]
      · simp [insertArt, h, ih, pushNew, hm, h2]

theorem arts_fold_keys (bn : String) :
    ∀ (arts : List Article) (acc : List (String × List (String × Fields))),
      ((arts.foldl (fun acc2 a => insertArt acc2 bn a) acc).map Prod.fst) =
        (arts.map (fun a => a.code)).foldl pushNew (acc.map Prod.fst) := by
  intro arts
  induction arts with
  | nil => intro acc; rfl
  | cons a t ih =>
    intro acc
    show ((t.foldl (fun acc2 x => insertArt acc2 bn x) (insertArt acc bn a)).map Prod.fst) = _
    rw [ih, insertArt_keys]
    rfl

theorem all_articles_keys :
    ∀ (en : List Branch) (acc : List (String × List (String × Fields))),
      ((en.foldl (fun acc2 b => b.articles.foldl (fun acc3 a => insertArt acc3 b.name a) acc2)
          acc).map Prod.fst) =
        (en.flatMap (fun b => b.articles.map (fun a => a.code))).foldl pushNew
          (acc.map Prod.fst) := by
  intro en
  induction en with
  | nil => intro acc; rfl
  | cons b t ih =>
    intro acc
    show ((t.foldl _ (b.articles.foldl (fun acc3 a => insertArt acc3 b.name a) acc)).map
        Prod.fst) = _
    rw [ih, arts_fold_keys]
    rw [List.flatMap_cons, List.foldl_append]

theorem rows_data_false_eq_map (br : List Branch) (cmp : CompareType) :
    rows_data br cmp false =
      (all_articles (br.filter fun b => b.enabled)).map
        (mkRow ((br.find? fun b => b.is_reference && b.enabled).map fun b => b.name)
          (br.filter fun b => b.enabled) cmp) := by
  unfold rows_data
  simp only [Bool.false_and, Bool.false_eq_true, if_false]
  exact filterMap_some_eq_map _ _

theorem foldl_pushNew_mem :
    ∀ (l : List String) (acc : List String) (c : String),
      c ∈ l.foldl pushNew acc ↔ c ∈ acc ∨ c ∈ l := by
  intro l
  induction l with
  | nil => intro acc c; simp
  | cons x t ih =>
    intro acc c
    show c ∈ t.foldl pushNew (pushNew acc x) ↔ _
    rw [ih]
    have hp : c ∈ pushNew acc x ↔ c ∈ acc ∨ c = x := by
      by_cases hm : x ∈ acc
      · simp only [pushNew, if_pos hm]
        constructor
        · exact Or.inl
        · rintro (h | h)
          · exact h
          · rw [h]; exact hm
      · simp [pushNew, if_neg hm]
    rw [hp]
    simp [List.mem_cons]
    tauto

theorem foldl_pushNew_nodup :
    ∀ (l : List String) (acc : List String), acc.Nodup → (l.foldl pushNew acc).Nodup := by
  intro l
  induction l with
  | nil => intro acc h; exact h
  | cons x t ih =>
    intro acc h
    show (t.foldl pushNew (pushNew acc x)).Nodup
    apply ih
    by_cases hm : x ∈ acc
    · simpa [pushNew, if_pos hm] using h
    · simp only [pushNew, if_neg hm]
      simp [List.nodup_append, h, hm]

/-- C4: with diff-only disabled, the reconciled rows carry exactly the
distinct codes appearing in any enabled branch's snapshot (union of codes,
not intersection), one row per code, in first-seen order over enabled
branches in registry order. -/
theorem claim_C4 :
    ∀ (br : List Branch) (cmp : CompareType),
      (rows_data br cmp false).map (fun r => r.code) = dedup_first (enabled_codes br) ∧
      ((rows_data br cmp false).map (fun r => r.code)).Nodup ∧
      (∀ c, c ∈ (rows_data br cmp false).map (fun r => r.code) ↔ c ∈ enabled_codes br) := by
  intro br cmp
  have hmap : (rows_data br cmp false).map (fun r => r.code) =
      (all_articles (br.filter fun b => b.enabled)).map Prod.fst := by
    rw [rows_data_false_eq_map, List.map_map]
    rfl
  have hkeys : (all_articles (br.filter fun b => b.enabled)).map Prod.fst =
      dedup_first (enabled_codes br) := by
    unfold all_articles dedup_first enabled_codes
    have := all_articles_keys (br.filter fun b => b.enabled) []
    simpa using this
  refine ⟨hmap.trans hkeys, ?_, ?_⟩
  · rw [hmap.trans hkeys]
    exact foldl_pushNew_nodup _ [] List.nodup_nil
  · intro c
    rw [hmap.trans hkeys]
    unfold dedup_first
    rw [foldl_pushNew_mem]
    simp

theorem applyLoop_spec (branches : List Branch) (net : BatchNet) :
    ∀ (gs : List (String × List Change)) (st : Nat × Nat × List (String × List UpdateItem)),
      applyLoop branches net gs st =
        (st.1 + (gs.map (fun g => (applyGroup branches net g.1 g.2).succ)).sum,
         st.2.1 + (gs.map (fun g => (applyGroup branches net g.1 g.2).fail)).sum,
         st.2.2 ++ (gs.map (fun g => (applyGroup branches net g.1 g.2).calls)).flatten) := by
  intro gs
  induction gs with
  | nil => intro st; simp [applyLoop]
  | cons g rest ih =>
    intro st
    show applyLoop branches net rest _ = _
    rw [ih]
    simp only [List.map_cons, List.sum_cons, List.flatten_cons]
    refine Prod.ext ?_ (Prod.ext ?_ ?_)
    · simp
      omega
    · simp
      omega
    · simp

theorem applyGroup_none (branches : List Branch) (net : BatchNet) (bn : String)
    (chs : List Change) (hf : branches.find? (fun x => x.name = bn) = Option.none) :
    applyGroup branches net bn chs = ⟨0, chs.length, []⟩ := by
  unfold applyGroup
  rw [hf]

theorem applyGroup_unconn (branches : List Branch) (net : BatchNet) (bn : String)
    (chs : List Change) (b : Branch) (hf : branches.find? (fun x => x.name = bn) = some b)
    (hs : b.status ≠ BranchStatus.CONNECTED) :
    applyGroup branches net bn chs = ⟨0, chs.length, []⟩ := by
  unfold applyGroup
  rw [hf]
  exact if_pos hs

theorem applyGroup_conn_ok (branches : List Branch) (net : BatchNet) (bn : String)
    (chs : List Change) (b : Branch) (hf : branches.find? (fun x => x.name = bn) = some b)
    (hs : b.status = BranchStatus.CONNECTED)
    (hok : (net bn (chs.map toItem)).success = true) :
    applyGroup branches net bn chs =
      ⟨(net bn (chs.map toItem)).success_count, (net bn (chs.map toItem)).failed_count,
        [(bn, chs.map toItem)]⟩ := by
  unfold applyGroup
  rw [hf]
  show (if b.status ≠ BranchStatus.CONNECTED then _ else _) = _
  rw [if_neg (by rw [hs]; exact fun h => h rfl)]
  show (if (net bn (chs.map toItem)).success = true then _ else _) = _
  rw [if_pos hok]

theorem applyGroup_conn_err (branches : List Branch) (net : BatchNet) (bn : String)
    (chs : List Change) (b : Branch) (hf : branches.find? (fun x => x.name = bn) = some b)
    (hs : b.status = BranchStatus.CONNECTED)
    (hok : (net bn (chs.map toItem)).success = false) :
    applyGroup branches net bn chs = ⟨0, (chs.map toItem).length, [(bn, chs.map toItem)]⟩ := by
  unfold applyGroup
  rw [hf]
  show (if b.status ≠ BranchStatus.CONNECTED then _ else _) = _
  rw [if_neg (by rw [hs]; exact fun h => h rfl)]
  show (if (net bn (chs.map toItem)).success = true then _ else _) = _
  rw [if_neg (by rw [hok]; exact fun h => nomatch h)]

theorem applyGroup_calls (branches : List Branch) (net : BatchNet) (bn : String)
    (chs : List Change) :
    ∀ c ∈ (applyGroup branches net bn chs).calls,
      ∃ b, branches.find? (fun x => x.name = bn) = some b ∧
        b.status = .CONNECTED ∧ c.1 = bn := by
  intro c hc
  cases hf : branches.find? (fun x => x.name = bn) with
  | none => rw [applyGroup_none branches net bn chs hf] at hc; simp at hc
  | some b =>
    by_cases hs : b.status = BranchStatus.CONNECTED
    · by_cases hok : (net bn (chs.map toItem)).success = true
      · rw [applyGroup_conn_ok branches net bn chs b hf hs hok] at hc
        simp at hc
        exact ⟨b, rfl, hs, by rw [hc]⟩
      · rw [applyGroup_conn_err branches net bn chs b hf hs (by simpa using hok)] at hc
        simp at hc
        exact ⟨b, rfl, hs, by rw [hc]⟩
    · rw [applyGroup_unconn branches net bn chs b hf hs] at hc
      simp at hc

/-- C7: during a dispatch cycle, a branch group whose branch is missing or
has a health status other than CONNECTED at dispatch time contributes all
its pending changes to the failure tally (the cycle's failure count is the
sum of the per-group failure contributions) and no network call of the
cycle targets that branch. -/
theorem claim_C7 :
    ∀ (branches : List Branch) (net : BatchNet) (pending : List Change)
      (bn : String) (chs : List Change),
      (bn, chs) ∈ group_by_branch pending →
      (∀ b, branches.find? (fun x => x.name = bn) = some b → b.status ≠ .CONNECTED) →
      applyGroup branches net bn chs = ⟨0, chs.length, []⟩ ∧
      (do_apply_changes branches net pending).failCount =
        ((group_by_branch pending).map (fun g => (applyGroup branches net g.1 g.2).fail)).sum ∧
      (∀ c ∈ (do_apply_changes branches net pending).calls, c.1 ≠ bn) := by
  intro branches net pending bn chs _ hunh
  refine ⟨?_, ?_, ?_⟩
  · cases hf : branches.find? (fun x => x.name = bn) with
    | none => exact applyGroup_none branches net bn chs hf
    | some b => exact applyGroup_unconn branches net bn chs b hf (hunh b hf)
  · show (applyLoop branches net (group_by_branch pending) (0, 0, [])).2.1 = _
    rw [applyLoop_spec]
    simp
  · intro c hc
    show c.1 ≠ bn
    intro hceq
    have hcalls : (do_apply_changes branches net pending).calls =
        ((group_by_branch pending).map
          (fun g => (applyGroup branches net g.1 g.2).calls)).flatten := by
      show (applyLoop branches net (group_by_branch pending) (0, 0, [])).2.2 = _
      rw [applyLoop_spec]
      simp
    rw [hcalls] at hc
    obtain ⟨l, hl, hcl⟩ := List.mem_flatten.mp hc
    obtain ⟨g, _, hg⟩ := List.mem_map.mp hl
    rw [← hg] at hcl
    obtain ⟨b, hfb, hbs, hcb⟩ := applyGroup_calls branches net g.1 g.2 c hcl
    rw [hceq] at hcb
    rw [← hcb] at hfb
    exact hunh b hfb hbs

/-- Concrete AUTH_ERROR branch for the C7 witness and C8 counterexample. -/
def authBranch : Branch :=
  { name := "A", enabled := true, is_reference := true, status := .AUTH_ERROR, articles := [] }

/-- Concrete pending change targeting branch A. -/
def cexChange : Change :=
  { code := "1001", branch := "A", field := "قیمت", old_value := .int 5000,
    new_value := .int 4000 }

/-- A trivial batch network oracle. -/
def netEx : BatchNet := fun _ _ => ⟨true, 0, 0⟩

/-- Witness for C7: one branch in AUTH_ERROR, one pending change for it. -/
theorem claim_C7_witness :
    applyGroup [authBranch] netEx "A" [cexChange] = ⟨0, 1, []⟩ ∧
    (∀ c ∈ (do_apply_changes [authBranch] netEx [cexChange]).calls, c.1 ≠ "A") := by
  have h := claim_C7 [authBranch] netEx [cexChange] "A" [cexChange] (by decide)
    (fun b hb => by
      rw [show List.find? (fun x => x.name = "A") [authBranch] = some authBranch from rfl] at hb
      cases hb
      decide)
  exact ⟨h.1, h.2.2⟩

/-- C8 (amended): after every dispatch cycle the ledger is empty
regardless of outcome; the tally folds in the server-reported success and
failure counts per successfully-called CONNECTED branch and sums the
per-group contributions; and the triggered refetch covers exactly the
branches that are enabled and currently CONNECTED (no branch is refetched
when none are). -/
theorem claim_C8 :
    ∀ (branches : List Branch) (net : BatchNet) (pending : List Change),
      (do_apply_changes branches net pending).pendingAfter = [] ∧
      (do_apply_changes branches net pending).refetched =
        (branches.filter (fun b => b.enabled && b.status == .CONNECTED)).map
          (fun b => b.name) ∧
      (do_apply_changes branches net pending).successCount =
        ((group_by_branch pending).map (fun g => (applyGroup branches net g.1 g.2).succ)).sum ∧
      (do_apply_changes branches net pending).failCount =
        ((group_by_branch pending).map (fun g => (applyGroup branches net g.1 g.2).fail)).sum ∧
      (∀ (bn : String) (chs : List Change) (b : Branch),
        branches.find? (fun x => x.name = bn) = some b → b.status = .CONNECTED →
        (net bn (chs.map toItem)).success = true →
        applyGroup branches net bn chs =
          ⟨(net bn (chs.map toItem)).success_count, (net bn (chs.map toItem)).failed_count,
            [(bn, chs.map toItem)]⟩) := by
  intro branches net pending
  refine ⟨rfl, rfl, ?_, ?_, ?_⟩
  · show (applyLoop branches net (group_by_branch pending) (0, 0, [])).1 = _
    rw [applyLoop_spec]
    simp
  · show (applyLoop branches net (group_by_branch pending) (0, 0, [])).2.1 = _
    rw [applyLoop_spec]
    simp
  · intro bn chs b hf hconn hok
    exact applyGroup_conn_ok branches net bn chs b hf hconn hok

/-- Counterexample to C8 as stated: a cycle over a single enabled branch
in AUTH_ERROR completes (ledger cleared, its changes tallied as failed),
but no fresh fetch happens for any enabled branch: fetch_all_data fetches
only enabled-and-CONNECTED branches and aborts when there are none. -/
theorem claim_C8_counterexample :
    (do_apply_changes [authBranch] netEx [cexChange]).pendingAfter = [] ∧
    (do_apply_changes [authBranch] netEx [cexChange]).failCount = 1 ∧
    (do_apply_changes [authBranch] netEx [cexChange]).refetched = [] ∧
    ([authBranch].filter (fun b => b.enabled)).map (fun b => b.name) = ["A"] :=
  ⟨rfl, by decide, by decide, by decide⟩

/-- Concrete CONNECTED branch for the C8 witness. -/
def connBranch : Branch :=
  { name := "A", enabled := true, is_reference := false, status := .CONNECTED, articles := [] }

/-- A network oracle whose server reports 2 successes and 1 failure. -/
def net21 : BatchNet := fun _ _ => ⟨true, 2, 1⟩

/-- Three pending changes for branch A. -/
def threeChanges : List Change :=
  [{ code := "1", branch := "A", field := "قیمت", old_value := .int 1, new_value := .int 2 },
   { code := "2", branch := "A", field := "قیمت", old_value := .int 1, new_value := .int 3 },
   { code := "3", branch := "A", field := "نام", old_value := .str "x", new_value := .str "y" }]

/-- Witness for C8: a batch of 3 changes to a CONNECTED branch whose
server reports 2 successes and 1 failure contributes exactly 2 and 1, and
the ledger is empty afterwards. -/
theorem claim_C8_witness :
    applyGroup [connBranch] net21 "A" threeChanges =
      ⟨2, 1, [("A", threeChanges.map toItem)]⟩ ∧
    (do_apply_changes [connBranch] net21 threeChanges).pendingAfter = [] := by
  have h := claim_C8 [connBranch] net21 threeChanges
  exact ⟨h.2.2.2.2 "A" threeChanges connBranch rfl rfl rfl, h.1⟩

theorem digitChar_ne_dot (n : Nat) : digitChar n ≠ '.' := by
  unfold digitChar
  split <;> decide

theorem digitChar_ne_comma (n : Nat) : digitChar n ≠ ',' := by
  unfold digitChar
  split <;> decide

theorem digitChar_ne_zero (n : Nat) (h0 : n ≠ 0) (h10 : n < 10) : digitChar n ≠ '0' := by
  interval_cases n <;> first | exact absurd rfl h0 | decide

theorem natAux_ne_nil : ∀ (fuel n : Nat), n < fuel → natDigitsAux fuel n ≠ [] := by
  intro fuel n h
  cases fuel with
  | zero => omega
  | succ f =>
    unfold natDigitsAux
    by_cases h10 : n < 10
    · simp [h10]
    · simp [h10]

theorem natAux_mem :
    ∀ (fuel n : Nat) (c : Char), n < fuel → c ∈ natDigitsAux fuel n →
      ∃ k, k < 10 ∧ c = digitChar k := by
  intro fuel
  induction fuel with
  | zero => intro n c h; omega
  | succ f ih =>
    intro n c h hc
    unfold natDigitsAux at hc
    by_cases h10 : n < 10
    · rw [if_pos h10] at hc
      simp at hc
      exact ⟨n, h10, hc⟩
    · rw [if_neg h10] at hc
      rcases List.mem_append.mp hc with h2 | h2
      · have hlt : n / 10 < n := Nat.div_lt_self (by omega) (by omega)
        exact ih (n / 10) c (by omega) h2
      · simp at h2
        exact ⟨n % 10, by omega, h2⟩

theorem natAux_getLast :
    ∀ (fuel n : Nat), n < fuel →
      (natDigitsAux fuel n).getLast? = some (digitChar (n % 10)) := by
  intro fuel
  induction fuel with
  | zero => intro n h; omega
  | succ f _
    =>
    intro n h
    unfold natDigitsAux
    by_cases h10 : n < 10
    · rw [if_pos h10]
      simp [Nat.mod_eq_of_lt h10]
    · rw [if_neg h10]
      exact List.getLast?_concat _

theorem natAux_len_le :
    ∀ (fuel n k : Nat), n < fuel → n < 10 ^ k → 1 ≤ k →
      (natDigitsAux fuel n).length ≤ k := by
  intro fuel
  induction fuel with
  | zero => intro n k h; omega
  | succ f ih =>
    intro n k h hnk hk
    unfold natDigitsAux
    by_cases h10 : n < 10
    · rw [if_pos h10]
      simpa using hk
    · rw [if_neg h10]
      have hk2 : 2 ≤ k := by
        by_contra hlt
        have hk1 : k = 1 := by omega
        subst hk1
        simp at hnk
        omega
      have hdiv : n / 10 < 10 ^ (k - 1) := by
        rw [Nat.div_lt_iff_lt_mul (by omega)]
        calc n < 10 ^ k := hnk
          _ = 10 ^ (k - 1) * 10 := by
            rw [← Nat.pow_succ]
            congr 1
            omega
      have hlt : n / 10 < n := Nat.div_lt_self (by omega) (by omega)
      have := ih (n / 10) (k - 1) (by omega) hdiv (by omega)
      simp only [List.length_append, List.length_cons, List.length_nil]
      omega

theorem natDigits_mem (n : Nat) (c : Char) (hc : c ∈ natDigits n) :
    ∃ k, k < 10 ∧ c = digitChar k :=
  natAux_mem (n + 1) n c (by omega) hc

theorem natDigits_no_dot (n : Nat) : '.' ∉ natDigits n := by
  intro h
  obtain ⟨k, _, hk⟩ := natDigits_mem n '.' h
  exact digitChar_ne_dot k hk.symm

theorem natDigits_no_comma (n : Nat) : ',' ∉ natDigits n := by
  intro h
  obtain ⟨k, _, hk⟩ := natDigits_mem n ',' h
  exact digitChar_ne_comma k hk.symm

theorem natDigits_ne_nil (n : Nat) : natDigits n ≠ [] :=
  natAux_ne_nil (n + 1) n (by omega)

theorem natDigits_getLast (n : Nat) : (natDigits n).getLast? = some (digitChar (n % 10)) :=
  natAux_getLast (n + 1) n (by omega)

theorem commaRev_eq_self (l : List Char)
    (h : ∀ (a b c d : Char) (rest : List Char), l = a :: b :: c :: d :: rest → False) :
    commaRev l = l := by
  unfold commaRev
  split
  · rename_i a b c d rest
    exact absurd rfl (h a b c d rest)
  · rfl

theorem commaRev_filter :
    ∀ l : List Char, (commaRev l).filter (fun c => c != ',') = l.filter (fun c => c != ',') := by
  intro l
  induction l using commaRev.induct with
  | case1 a b c d rest ih =>
    rw [show commaRev (a :: b :: c :: d :: rest) = a :: b :: c :: ',' :: commaRev (d :: rest)
      from rfl]
    simp [List.filter_cons, ih]
  | case2 l h => rw [commaRev_eq_self l h]

theorem commaRev_mem : ∀ (l : List Char) (c : Char), c ∈ commaRev l → c ∈ l ∨ c = ',' := by
  intro l
  induction l using commaRev.induct with
  | case1 a b c' d rest ih =>
    intro c hc
    rw [show commaRev (a :: b :: c' :: d :: rest) = a :: b :: c' :: ',' :: commaRev (d :: rest)
      from rfl] at hc
    simp only [List.mem_cons] at hc
    rcases hc with h | h | h | h | h
    · exact Or.inl (by simp [h])
    · exact Or.inl (by simp [h])
    · exact Or.inl (by simp [h])
    · exact Or.inr h
    · rcases ih c h with h2 | h2
      · simp only [List.mem_cons] at h2
        rcases h2 with h3 | h3
        · exact Or.inl (by simp [h3])
        · exact Or.inl (by simp [List.mem_cons, h3])
      · exact Or.inr h2
  | case2 l h =>
    intro c hc
    rw [commaRev_eq_self l h] at hc
    exact Or.inl hc

theorem commaGroup_filter (ds : List Char) :
    (commaGroup ds).filter (fun c => c != ',') = ds.filter (fun c => c != ',') := by
  unfold commaGroup
  rw [List.filter_reverse, commaRev_filter, ← List.filter_reverse, List.reverse_reverse]

theorem commaGroup_mem (ds : List Char) (c : Char) (hc : c ∈ commaGroup ds) :
    c ∈ ds ∨ c = ',' := by
  unfold commaGroup at hc
  rw [List.mem_reverse] at hc
  rcases commaRev_mem _ c hc with h | h
  · exact Or.inl (List.mem_reverse.mp h)
  · exact Or.inr h

theorem dropWhile_append_all {p : Char → Bool} :
    ∀ (l1 l2 : List Char), (∀ c ∈ l1, p c = true) →
      (l1 ++ l2).dropWhile p = l2.dropWhile p := by
  intro l1
  induction l1 with
  | nil => intro l2 _; rfl
  | cons a t ih =>
    intro l2 h
    rw [List.cons_append, List.dropWhile_cons, if_pos (h a (by simp))]
    exact ih l2 (fun c hc => h c (by simp [hc]))

theorem dropWhile_append_memfalse {p : Char → Bool} :
    ∀ (l1 l2 : List Char), (∃ x ∈ l1, p x = false) →
      (l1 ++ l2).dropWhile p = l1.dropWhile p ++ l2 := by
  intro l1
  induction l1 with
  | nil => intro l2 h; simp at h
  | cons a t ih =>
    intro l2 h
    by_cases ha : p a = true
    · rw [List.cons_append, List.dropWhile_cons, if_pos ha, List.dropWhile_cons, if_pos ha]
      apply ih
      obtain ⟨x, hx, hpx⟩ := h
      rcases List.mem_cons.mp hx with he | hm
      · rw [he] at hpx
        rw [hpx] at ha
        exact absurd ha (by simp)
      · exact ⟨x, hm, hpx⟩
    · have ha2 : p a = false := by simpa using ha
      rw [List.cons_append, List.dropWhile_cons, if_neg (by simp [ha2]),
        List.dropWhile_cons, if_neg (by simp [ha2]), List.cons_append]

theorem dropWhile_ne_nil_of_memfalse {p : Char → Bool} :
    ∀ l : List Char, (∃ x ∈ l, p x = false) → l.dropWhile p ≠ [] := by
  intro l
  induction l with
  | nil => intro h; simp at h
  | cons a t ih =>
    intro h
    by_cases ha : p a = true
    · rw [List.dropWhile_cons, if_pos ha]
      apply ih
      obtain ⟨x, hx, hpx⟩ := h
      rcases List.mem_cons.mp hx with he | hm
      · rw [he] at hpx
        rw [hpx] at ha
        exact absurd ha (by simp)
      · exact ⟨x, hm, hpx⟩
    · rw [List.dropWhile_cons, if_neg ha]
      simp

theorem fracLenL_eq_of_clean (pre frac : List Char)
    (hpre : ∀ c ∈ pre, (c != '.') = true) :
    fracLenL (pre ++ '.' :: frac) = frac.length := by
  unfold fracLenL
  rw [dropWhile_append_all pre ('.' :: frac) hpre]
  rw [List.dropWhile_cons, if_neg (by simp)]
  simp

theorem fracLenL_prefix_le (l1 l2 : List Char) (h : l1 <+: l2) :
    fracLenL l1 ≤ fracLenL l2 := by
  obtain ⟨t, rfl⟩ := h
  by_cases hdot : ∃ x ∈ l1, (x != '.') = false
  · unfold fracLenL
    rw [dropWhile_append_memfalse l1 t hdot]
    have hne := dropWhile_ne_nil_of_memfalse l1 hdot
    have hlen : 1 ≤ (l1.dropWhile (fun c => c != '.')).length := by
      cases hd : l1.dropWhile (fun c => c != '.') with
      | nil => exact absurd hd hne
      | cons a t2 => simp
    rw [List.drop_append_of_le_length hlen]
    simp only [List.length_append]
    omega
  · push_neg at hdot
    have hall : l1.dropWhile (fun c => c != '.') = [] := by
      rw [List.dropWhile_eq_nil_iff]
      intro x hx
      have := hdot x hx
      simpa using this
    unfold fracLenL
    rw [hall]
    simp

theorem rstripC_front (l : List Char) (c : Char) : rstripC l c <+: l := by
  unfold rstripC
  have h := List.dropWhile_suffix (l := l.reverse) (fun x => x == c)
  exact List.reverse_suffix.mp (by simpa using h)

theorem rstripC_eq_of_getLast (l : List Char) (c z : Char)
    (hz : l.getLast? = some z) (hzc : (z == c) = false) : rstripC l c = l := by
  unfold rstripC
  have hh : l.reverse.head? = some z := by rw [List.head?_reverse]; exact hz
  cases hrev : l.reverse with
  | nil => rw [hrev] at hh; simp at hh
  | cons a t =>
    rw [hrev] at hh
    simp only [List.head?_cons, Option.some.injEq] at hh
    have hd : List.dropWhile (fun x => x == c) (a :: t) = a :: t := by
      rw [List.dropWhile_cons, if_neg (by rw [hh, hzc]; simp)]
    calc (List.dropWhile (fun x => x == c) (a :: t)).reverse
        = (a :: t).reverse := by rw [hd]
      _ = l.reverse.reverse := by rw [hrev]
      _ = l := List.reverse_reverse l

theorem padZeros_len (l : List Char) (e : Nat) (h : l.length ≤ e) :
    (padZeros l e).length = e := by
  unfold padZeros
  simp
  omega

theorem padZeros_getLast (l : List Char) (e : Nat) (h : l ≠ []) :
    (padZeros l e).getLast? = l.getLast? := by
  unfold padZeros
  rw [List.getLast?_append]
  cases hl : l.getLast? with
  | none => exact absurd (List.getLast?_eq_none_iff.mp hl) h
  | some z => simp

theorem fixed2_fracLen (d : Dec) : fracLenL (fixed2Chars d) = 2 := by
  show fracLenL
      ((if roundHalfEvenDiv (100 * d.m) (10 ^ d.e : Int) < 0 then ['-'] else []) ++
        commaGroup (natDigits ((roundHalfEvenDiv (100 * d.m) (10 ^ d.e : Int)).natAbs / 100)) ++
        '.' :: padZeros (natDigits ((roundHalfEvenDiv (100 * d.m) (10 ^ d.e : Int)).natAbs % 100))
          2) = 2
  rw [fracLenL_eq_of_clean]
  · rw [padZeros_len]
    have : (roundHalfEvenDiv (100 * d.m) (10 ^ d.e : Int)).natAbs % 100 < 100 :=
      Nat.mod_lt _ (by omega)
    have h2 : (100 : Nat) = 10 ^ 2 := by norm_num
    exact natAux_len_le _ _ 2 (by omega) (by omega) (by omega)
  · intro c hc
    rcases List.mem_append.mp hc with h | h
    · rcases List.mem_ite_nil_right.mp h with ⟨_, h2⟩
      simp at h2
      rw [h2]
      decide
    · rcases commaGroup_mem _ c h with h2 | h2
      · obtain ⟨k, _, hk⟩ := natDigits_mem _ c h2
        rw [hk]
        simpa using digitChar_ne_dot k
      · rw [h2]
        decide

theorem norm_isIntegral :
    ∀ (m : Int) (e : Nat),
      Dec.isIntegral ⟨(normAux m e).1, (normAux m e).2⟩ = Dec.isIntegral ⟨m, e⟩ := by
  intro m e
  induction m, e using normAux.induct with
  | case1 m => rfl
  | case2 m e hcond ih =>
    rw [show normAux m (e + 1) = normAux (m.tdiv 10) e from by
      show (if (m % 10 == 0) = true then normAux (m.tdiv 10) e else (m, e + 1)) = _
      rw [if_pos hcond]]
    rw [ih]
    have hdvd : (10 : Int) ∣ m := Int.dvd_of_emod_eq_zero (by simpa using hcond)
    have hm : 10 * m.tdiv 10 = m := Int.mul_tdiv_cancel' hdvd
    have hiff : (m.tdiv 10 % (10 ^ e : Int) = 0) ↔ (m % (10 ^ (e + 1) : Int) = 0) := by
      constructor
      · intro h2
        have hd : (10 ^ e : Int) ∣ m.tdiv 10 := Int.dvd_of_emod_eq_zero h2
        have hd2 : (10 ^ (e + 1) : Int) ∣ m := by
          rw [← hm, pow_succ']
          exact mul_dvd_mul_left 10 hd
        exact Int.emod_eq_zero_of_dvd hd2
      · intro h2
        have hd : (10 ^ (e + 1) : Int) ∣ m := Int.dvd_of_emod_eq_zero h2
        have hd2 : (10 : Int) * 10 ^ e ∣ 10 * m.tdiv 10 := by
          rw [hm, ← pow_succ']
          exact hd
        have hd3 := (mul_dvd_mul_iff_left (by norm_num : (10 : Int) ≠ 0)).mp hd2
        exact Int.emod_eq_zero_of_dvd hd3
    unfold Dec.isIntegral
    rw [Bool.eq_iff_iff]
    simp only [beq_iff_eq]
    exact hiff
  | case3 m e hcond =>
    rw [show normAux m (e + 1) = (m, e + 1) from by
      show (if (m % 10 == 0) = true then normAux (m.tdiv 10) e else (m, e + 1)) = _
      rw [if_neg hcond]]

theorem norm_not_dvd :
    ∀ (m : Int) (e : Nat), (normAux m e).2 ≠ 0 → ¬((10 : Int) ∣ (normAux m e).1) := by
  intro m e
  induction m, e using normAux.induct with
  | case1 m => intro h; exact absurd rfl h
  | case2 m e hcond ih =>
    rw [show normAux m (e + 1) = normAux (m.tdiv 10) e from by
      show (if (m % 10 == 0) = true then normAux (m.tdiv 10) e else (m, e + 1)) = _
      rw [if_pos hcond]]
    exact ih
  | case3 m e hcond =>
    rw [show normAux m (e + 1) = (m, e + 1) from by
      show (if (m % 10 == 0) = true then normAux (m.tdiv 10) e else (m, e + 1)) = _
      rw [if_neg hcond]]
    intro _ hdvd
    have : m % 10 = 0 := Int.emod_eq_zero_of_dvd hdvd
    exact hcond (by simp [this])

theorem nonIntegral_m_ne (d : Dec) (h : d.isIntegral = false) : d.m ≠ 0 := by
  intro he
  simp [Dec.isIntegral, he] at h

theorem norm_e_ne_zero (d : Dec) (h : d.isIntegral = false) : (d.norm).e ≠ 0 := by
  intro he
  have h2 := norm_isIntegral d.m d.e
  have h3 : Dec.isIntegral d.norm = true := by
    unfold Dec.isIntegral
    rw [show d.norm.e = 0 from he]
    simp
  have h4 : Dec.isIntegral d.norm = Dec.isIntegral d := h2
  rw [h3] at h4
  rw [h] at h4
  exact absurd h4 (by simp)

theorem norm_m_not_dvd (d : Dec) (h : d.isIntegral = false) :
    ¬((10 : Int) ∣ d.norm.m) :=
  norm_not_dvd d.m d.e (norm_e_ne_zero d h)

theorem decChars_nonint_getLast (d : Dec) (h : d.isIntegral = false) :
    ∃ z, (decChars d).getLast? = some z ∧ (z == '0') = false ∧ (z == '.') = false := by
  have hne : d.norm.e ≠ 0 := norm_e_ne_zero d h
  have hnd : ¬((10 : Int) ∣ d.norm.m) := norm_m_not_dvd d h
  have hmod : d.norm.m.natAbs % 10 ≠ 0 := by
    intro he
    have : (10 : Nat) ∣ d.norm.m.natAbs := Nat.dvd_of_mod_eq_zero he
    have h10 : ((10 : Int)).natAbs ∣ d.norm.m.natAbs := this
    exact hnd (Int.natAbs_dvd_natAbs.mp h10)
  have hdc : decChars d =
      (if d.norm.m < 0 then ['-'] else []) ++ natDigits (d.norm.m.natAbs / 10 ^ d.norm.e) ++
        '.' :: padZeros (natDigits (d.norm.m.natAbs % 10 ^ d.norm.e)) d.norm.e := by
    show (if d.norm.e = 0 then _ else _) = _
    rw [if_neg hne]
  have hpad : (padZeros (natDigits (d.norm.m.natAbs % 10 ^ d.norm.e)) d.norm.e).getLast? =
      some (digitChar (d.norm.m.natAbs % 10)) := by
    rw [padZeros_getLast _ _ (natDigits_ne_nil _), natDigits_getLast]
    rw [Nat.mod_mod_of_dvd _ (dvd_pow_self 10 hne)]
  refine ⟨digitChar (d.norm.m.natAbs % 10), ?_, ?_, ?_⟩
  · rw [hdc, List.getLast?_append]
    rw [show ('.' :: padZeros (natDigits (d.norm.m.natAbs % 10 ^ d.norm.e)) d.norm.e) =
      ['.'] ++ padZeros (natDigits (d.norm.m.natAbs % 10 ^ d.norm.e)) d.norm.e from rfl]
    rw [List.getLast?_append, hpad]
    rfl
  · exact beq_eq_false_iff_ne.mpr (digitChar_ne_zero _ hmod (Nat.mod_lt _ (by omega)))
  · exact beq_eq_false_iff_ne.mpr (digitChar_ne_dot _)

theorem format_number_float_nonint (d : Dec) (h : d.isIntegral = false) :
    format_number (.float d) = pyStr (.float d) := by
  have hm0 : d.m ≠ 0 := nonIntegral_m_ne d h
  unfold format_number
  rw [if_neg (by rintro (h2 | h2) <;> exact absurd h2 (by simp))]
  show (if (d.m == 0) = true then "" else if d.isIntegral = true then ⟨intChars d.truncInt⟩
      else (⟨rstripC (rstripC (decChars d) '0') '.'⟩ : String)) = _
  rw [if_neg (by simp [hm0]), if_neg (by simp [h])]
  obtain ⟨z, hz, hz0, hzd⟩ := decChars_nonint_getLast d h
  rw [rstripC_eq_of_getLast _ _ z hz hz0, rstripC_eq_of_getLast _ _ z hz hzd]
  rfl

theorem format_price_float_nonint (d : Dec) (h : d.isIntegral = false) :
    format_price (.float d) = ⟨rstripC (rstripC (fixed2Chars d) '0') '.'⟩ := by
  have hm0 : d.m ≠ 0 := nonIntegral_m_ne d h
  unfold format_price
  rw [if_neg (by
    rintro (h2 | h2 | h2)
    · exact absurd h2 (by simp)
    · exact absurd h2 (by simp)
    · exact absurd h2 (by simp [isPyZero, hm0]))]
  show (if d.isIntegral = true then (⟨priceIntChars d.truncInt⟩ : String)
      else ⟨rstripC (rstripC (fixed2Chars d) '0') '.'⟩) = _
  rw [if_neg (by simp [h])]

theorem format_price_nonint_fracLen (d : Dec) (h : d.isIntegral = false) :
    fracLenL (format_price (.float d)).data ≤ 2 := by
  rw [format_price_float_nonint d h]
  show fracLenL (rstripC (rstripC (fixed2Chars d) '0') '.') ≤ 2
  calc fracLenL (rstripC (rstripC (fixed2Chars d) '0') '.')
      ≤ fracLenL (rstripC (fixed2Chars d) '0') :=
        fracLenL_prefix_le _ _ (rstripC_front _ _)
    _ ≤ fracLenL (fixed2Chars d) := fracLenL_prefix_le _ _ (rstripC_front _ _)
    _ = 2 := fixed2_fracLen d

theorem format_price_int (n : Int) (h : n ≠ 0) :
    format_price (.int n) = ⟨priceIntChars n⟩ := by
  unfold format_price
  rw [if_neg (by
    rintro (h2 | h2 | h2)
    · exact absurd h2 (by simp)
    · exact absurd h2 (by simp)
    · exact absurd h2 (by simp [isPyZero, h]))]
  show (if Dec.isIntegral ⟨n, 0⟩ = true then (⟨priceIntChars (Dec.truncInt ⟨n, 0⟩)⟩ : String)
      else _) = _
  rw [if_pos (by simp [Dec.isIntegral])]
  rw [show Dec.truncInt ⟨n, 0⟩ = n from by simp [Dec.truncInt, Int.tdiv_one]]

theorem format_number_int (n : Int) (h : n ≠ 0) :
    format_number (.int n) = ⟨intChars n⟩ := by
  unfold format_number
  rw [if_neg (by rintro (h2 | h2) <;> exact absurd h2 (by simp))]
  show (if ((n : Int) == 0) = true then "" else if Dec.isIntegral ⟨n, 0⟩ = true then
      (⟨intChars (Dec.truncInt ⟨n, 0⟩)⟩ : String) else _) = _
  rw [if_neg (by simp [h]), if_pos (by simp [Dec.isIntegral])]
  rw [show Dec.truncInt ⟨n, 0⟩ = n from by simp [Dec.truncInt, Int.tdiv_one]]

theorem intChars_no_dot (n : Int) : '.' ∉ intChars n := by
  unfold intChars
  intro hc
  rcases List.mem_append.mp hc with h | h
  · rcases List.mem_ite_nil_right.mp h with ⟨_, h2⟩
    simp at h2
  · exact natDigits_no_dot _ h

theorem intChars_no_comma (n : Int) : ',' ∉ intChars n := by
  unfold intChars
  intro hc
  rcases List.mem_append.mp hc with h | h
  · rcases List.mem_ite_nil_right.mp h with ⟨_, h2⟩
    simp at h2
  · exact natDigits_no_comma _ h

theorem priceIntChars_no_dot (n : Int) : '.' ∉ priceIntChars n := by
  unfold priceIntChars
  intro hc
  rcases List.mem_append.mp hc with h | h
  · rcases List.mem_ite_nil_right.mp h with ⟨_, h2⟩
    simp at h2
  · rcases commaGroup_mem _ _ h with h2 | h2
    · exact natDigits_no_dot _ h2
    · simp at h2

theorem priceIntChars_filter (n : Int) :
    (priceIntChars n).filter (fun c => c != ',') = intChars n := by
  unfold priceIntChars intChars
  rw [List.filter_append, commaGroup_filter]
  congr 1
  · by_cases hn : n < 0 <;> simp [hn]
  · rw [List.filter_eq_self]
    intro c hc
    have hne : c ≠ ',' := fun he => natDigits_no_comma n.natAbs (by rw [he] at hc; exact hc)
    simpa using hne

theorem format_price_float_int (d : Dec) (hm : d.m ≠ 0) (h : d.isIntegral = true) :
    format_price (.float d) = ⟨priceIntChars d.truncInt⟩ := by
  unfold format_price
  rw [if_neg (by
    rintro (h2 | h2 | h2)
    · exact absurd h2 (by simp)
    · exact absurd h2 (by simp)
    · exact absurd h2 (by simp [isPyZero, hm]))]
  show (if d.isIntegral = true then (⟨priceIntChars d.truncInt⟩ : String)
      else ⟨rstripC (rstripC (fixed2Chars d) '0') '.'⟩) = _
  rw [if_pos h]

theorem format_number_float_int (d : Dec) (hm : d.m ≠ 0) (h : d.isIntegral = true) :
    format_number (.float d) = ⟨intChars d.truncInt⟩ := by
  unfold format_number
  rw [if_neg (by rintro (h2 | h2) <;> exact absurd h2 (by simp))]
  show (if (d.m == 0) = true then "" else if d.isIntegral = true then
      (⟨intChars d.truncInt⟩ : String) else ⟨rstripC (rstripC (decChars d) '0') '.'⟩) = _
  rw [if_neg (by simp [hm]), if_pos h]

theorem format_price_float_zero (e : Nat) : format_price (.float ⟨0, e⟩) = "" := by
  unfold format_price
  have hz : isPyZero (PyVal.float ⟨0, e⟩) = true := rfl
  rw [if_pos (Or.inr (Or.inr hz))]

theorem format_number_float_zero (e : Nat) : format_number (.float ⟨0, e⟩) = "" := by
  unfold format_number
  rw [if_neg (by rintro (h2 | h2) <;> exact absurd h2 (by simp))]
  show (if (((0 : Int)) == 0) = true then "" else _) = ""
  rw [if_pos (by decide)]

/-- C9 (amended): empty, zero or absent price/stock inputs render as the
empty string; integral values, whether carried as ints or as integral
floats such as 100.0, render without decimal places, with thousands
separators for price (removing the commas recovers exactly the plain
digit string of the integer value) and without separators for stock;
non-integral PRICE values render with at most 2 decimal places with
trailing zeros and a trailing decimal point stripped; non-integral STOCK
values render the full decimal representation of the value (str of the
float, not limited to 2 decimal places). -/
theorem claim_C9 :
    (format_price PyVal.none = "" ∧ format_number PyVal.none = "" ∧
      format_price (.str "") = "" ∧ format_number (.str "") = "" ∧
      format_price (.int 0) = "" ∧ format_number (.int 0) = "" ∧
      (∀ e : Nat, format_price (.float ⟨0, e⟩) = "" ∧ format_number (.float ⟨0, e⟩) = "")) ∧
    (∀ n : Int, n ≠ 0 →
      format_number (.int n) = ⟨intChars n⟩ ∧
      ',' ∉ (format_number (.int n)).data ∧ '.' ∉ (format_number (.int n)).data ∧
      '.' ∉ (format_price (.int n)).data ∧
      (format_price (.int n)).data.filter (fun c => c != ',') = intChars n) ∧
    format_price (.int 1234567) = "1,234,567" ∧
    (∀ d : Dec, d.isIntegral = false → fracLenL (format_price (.float d)).data ≤ 2) ∧
    format_price (.float ⟨5, 1⟩) = "0.5" ∧
    format_price (.float ⟨12345, 1⟩) = "1,234.5" ∧
    (∀ d : Dec, d.isIntegral = false → format_number (.float d) = pyStr (.float d)) ∧
    format_number (.float ⟨125, 3⟩) = "0.125" ∧
    (∀ d : Dec, d.m ≠ 0 → d.isIntegral = true →
      format_number (.float d) = ⟨intChars d.truncInt⟩ ∧
      ',' ∉ (format_number (.float d)).data ∧ '.' ∉ (format_number (.float d)).data ∧
      '.' ∉ (format_price (.float d)).data ∧
      (format_price (.float d)).data.filter (fun c => c != ',') = intChars d.truncInt) ∧
    format_price (.float ⟨100, 0⟩) = "100" ∧
    format_number (.float ⟨1234567, 0⟩) = "1234567" ∧
    format_price (.float ⟨12345670, 1⟩) = "1,234,567" := by
  refine ⟨⟨rfl, rfl, rfl, rfl, by decide, by decide,
      fun e => ⟨format_price_float_zero e, format_number_float_zero e⟩⟩,
    ?_, by decide, format_price_nonint_fracLen, by decide, by decide,
    format_number_float_nonint, by decide, ?_, by decide, by decide, by decide⟩
  · intro n hn
    refine ⟨format_number_int n hn, ?_, ?_, ?_, ?_⟩
    · rw [format_number_int n hn]
      exact intChars_no_comma n
    · rw [format_number_int n hn]
      exact intChars_no_dot n
    · rw [format_price_int n hn]
      exact priceIntChars_no_dot n
    · rw [format_price_int n hn]
      exact priceIntChars_filter n
  · intro d hm hi
    refine ⟨format_number_float_int d hm hi, ?_, ?_, ?_, ?_⟩
    · rw [format_number_float_int d hm hi]
      exact intChars_no_comma d.truncInt
    · rw [format_number_float_int d hm hi]
      exact intChars_no_dot d.truncInt
    · rw [format_price_float_int d hm hi]
      exact priceIntChars_no_dot d.truncInt
    · rw [format_price_float_int d hm hi]
      exact priceIntChars_filter d.truncInt

/-- Counterexample to C9 as stated: the stock value 0.125 is non-integral
and renders as "0.125", which has 3 decimal places, not at most 2 (lines
124-136 use str(num), not a 2-decimal format, for format_number). -/
theorem claim_C9_counterexample :
    format_number (.float ⟨125, 3⟩) = "0.125" ∧
    fracLenL (format_number (.float ⟨125, 3⟩)).data = 3 :=
  ⟨by decide, by decide⟩

/-- Witness for C9 at concrete inputs. -/
theorem claim_C9_witness :
    format_number (.int 5) = ⟨intChars 5⟩ ∧
    fracLenL (format_price (.float ⟨125, 2⟩)).data ≤ 2 ∧
    format_number (.float ⟨125, 3⟩) = pyStr (.float ⟨125, 3⟩) ∧
    format_price (.float ⟨0, 5⟩) = "" ∧
    format_number (.float ⟨100, 0⟩) = ⟨intChars (Dec.truncInt ⟨100, 0⟩)⟩ ∧
    (format_price (.float ⟨100, 0⟩)).data.filter (fun c => c != ',') =
      intChars (Dec.truncInt ⟨100, 0⟩) :=
  ⟨(claim_C9.2.1 5 (by decide)).1,
   claim_C9.2.2.2.1 ⟨125, 2⟩ (by decide),
   claim_C9.2.2.2.2.2.2.1 ⟨125, 3⟩ (by decide),
   (claim_C9.1.2.2.2.2.2.2 5).1,
   (claim_C9.2.2.2.2.2.2.2.2.1 ⟨100, 0⟩ (by decide) (by decide)).1,
   (claim_C9.2.2.2.2.2.2.2.2.1 ⟨100, 0⟩ (by decide) (by decide)).2.2.2.2⟩

